import Mathlib

/-!
Shallow embedding of the catalog-synchronization engine of
`sd-models-manager` (Rust, sqlite-backed), covering the parts exercised by
the claims: the item/tag tables of the catalog (`src/db/item.rs`,
`src/db/tag.rs`) and the Civitai enrichment pipeline (`src/civitai.rs`).

Tables are modelled as lists of rows; each SQL statement of the source is
translated into an explicit list transformation on a `DB` state.  SQLite
row ids (`last_insert_rowid`) are modelled by explicit `nextItemId` /
`nextTagId` counters.  Machine integers (`i64`) are modelled as `Int`.
-/

namespace SdModelsManager

set_option autoImplicit false

/-- A row of the `item` table.  Columns are the ones named by the queries in
`src/db/item.rs` (`id`, `name`, `path`, `base_id`, `parent`, `is_checked`)
plus the nullable content-identity column `hash`.

Modelled from the spec: the schema file is not part of the given sources,
so the content-identity column (spec data model: "content identity hash
(leaf files only, nullable)") is carried as a nullable field that no query
in `src/db/item.rs` reads or writes, `parent` defaults to the sentinel `0`
used for root-level nodes, and `is_checked` defaults to `true` on insert
(spec: a newly inserted item is `checked` at the end of the pass). -/
structure ItemRow where
  id : Int
  name : Option String
  path : String
  base_id : Int
  parent : Int
  is_checked : Bool
  hash : Option String
  deriving Repr, DecidableEq

/-- A row of the `base` table (`id`, `label`, `is_checked`), as named by the
queries in `src/db/item.rs` and the (commented-out) `src/db/base.rs`. -/
structure BaseRow where
  id : Int
  label : String
  is_checked : Bool
  deriving Repr, DecidableEq

/-- A row of the `tag` table (`id`, `name`), as named by `src/db/tag.rs`. -/
structure TagRow where
  id : Int
  name : String
  deriving Repr, DecidableEq

/-- A row of the `tag_item` association table (`item`, `tag`). -/
structure TagItemRow where
  item : Int
  tag : Int
  deriving Repr, DecidableEq

/-- The sqlite database state consumed by the engine: the four tables plus
the row-id counters that model sqlite's `last_insert_rowid`. -/
structure DB where
  items : List ItemRow
  bases : List BaseRow
  tags : List TagRow
  tag_items : List TagItemRow
  nextItemId : Int
  nextTagId : Int
  deriving Repr, DecidableEq

/-- The `Item` struct returned by the queries in `src/db/item.rs`
(fields `id`, `name`, `path`). -/
structure Item where
  id : Int
  name : Option String
  path : String
  deriving Repr, DecidableEq

namespace Db

namespace Item

/-- `item::mark_obsolete_all` (src/db/item.rs):
`UPDATE item SET is_checked = false WHERE is_checked = true AND path != ''`. -/
def mark_obsolete_all (db : DB) : DB :=
  { db with
    items := db.items.map fun r =>
      if r.is_checked = true ∧ r.path ≠ "" then { r with is_checked := false } else r }

/-- `item::mark_obsolete` (src/db/item.rs): first
`UPDATE item SET is_checked = false WHERE id = ?`, then
`SELECT item.path, base.label FROM base INNER JOIN item ON base.id = item.base_id
WHERE item.id = ?` with `fetch_one` (an empty result is a `sqlx::Error`).
The state mutation of the `UPDATE` persists even when the `SELECT` fails, so
the model returns the result together with the post-statement state. -/
def mark_obsolete (db : DB) (id : Int) : Except Unit (String × String) × DB :=
  let db1 : DB :=
    { db with
      items := db.items.map fun r =>
        if r.id = id then { r with is_checked := false } else r }
  match db1.items.find? (fun r => r.id = id) with
  | none => (Except.error (), db1)
  | some r =>
    match db1.bases.find? (fun b => b.id = r.base_id) with
    | none => (Except.error (), db1)
    | some b => (Except.ok (r.path, b.label), db1)

/-- Model of `std::path::Path::parent` for the slash-separated relative
paths handed to `insert_or_update` by the walker (normalized, no leading or
trailing separator): `none` for the empty path, otherwise the path with its
final `/`-separated component removed (the empty string for a single
component).  Implemented on the character list: drop, from the right, the
final component and the separator in front of it. -/
def rustParent? (path : String) : Option String :=
  if path = "" then none
  else some (String.mk (((path.data.reverse.dropWhile (fun c => c ≠ '/')).drop 1).reverse))

/-- The parent-resolution step of `item::insert_or_update` (src/db/item.rs):
`PathBuf::from(path).parent()`; when the parent path exists look its `id` up
(`SELECT id FROM item WHERE path = ? and base_id = ?`), otherwise
`INSERT OR IGNORE INTO item ( path, base_id) VALUES (?, ?)` and take
`last_insert_rowid()`.  (The `OR IGNORE` cannot fire here: the insert runs
only after the lookup found no row for the same `(path, base_id)` key.)
When the path has no parent, `parent_id` keeps its initial value `0`.
Returns `(parent_id, state)`. -/
def parentFindOrCreate (path : String) (base_id : Int) (db : DB) : Int × DB :=
  match rustParent? path with
  | none => (0, db)
  | some parent =>
    match db.items.find? (fun r => r.path = parent ∧ r.base_id = base_id) with
    | some r => (r.id, db)
    | none =>
      (db.nextItemId,
       { db with
         items := db.items ++
           [{ id := db.nextItemId, name := none, path := parent, base_id := base_id,
              parent := 0, is_checked := true, hash := none }],
         nextItemId := db.nextItemId + 1 })

/-- `item::insert_or_update` (src/db/item.rs): resolve the parent id
(`parentFindOrCreate`), then either
`UPDATE item SET is_checked=true, parent = ? WHERE id = ?` when a row with
this `(path, base_id)` exists, or insert a fresh row —
`INSERT OR IGNORE INTO item (name, path, base_id, parent)` when
`parent_id != 0`, else `INSERT OR IGNORE INTO item (name, path, base_id)`
(the `parent` column keeps its default `0`, which also equals `parent_id`
in that branch; `OR IGNORE` cannot fire since the lookup just failed). -/
def insert_or_update (name : Option String) (path : String) (base_id : Int) (db : DB) : DB :=
  let pr := parentFindOrCreate path base_id db
  let parent_id := pr.1
  let db1 := pr.2
  match db1.items.find? (fun r => r.path = path ∧ r.base_id = base_id) with
  | some r =>
    { db1 with
      items := db1.items.map fun rr =>
        if rr.id = r.id then { rr with is_checked := true, parent := parent_id } else rr }
  | none =>
    { db1 with
      items := db1.items ++
        [{ id := db1.nextItemId, name := name, path := path, base_id := base_id,
           parent := parent_id, is_checked := true, hash := none }],
      nextItemId := db1.nextItemId + 1 }

/-- `item::clean` (src/db/item.rs):
`DELETE FROM item WHERE is_checked = false`, returning `rows_affected()`. -/
def clean (db : DB) : Nat × DB :=
  ((db.items.filter (fun r => r.is_checked = false)).length,
   { db with items := db.items.filter (fun r => ¬ r.is_checked = false) })

/-- One insertion step of the insertion sort used to model `ORDER BY`. -/
def insertOrdered {α : Type} (le : α → α → Bool) (a : α) : List α → List α
  | [] => [a]
  | y :: ys => if le a y then a :: y :: ys else y :: insertOrdered le a ys

/-- Insertion sort by a boolean "should come first" relation, modelling the
`ORDER BY` clauses of the listing queries. -/
def orderBy {α : Type} (le : α → α → Bool) : List α → List α
  | [] => []
  | x :: xs => insertOrdered le x (orderBy le xs)

/-- SQLite `LIMIT ? OFFSET ?` applied to an ordered result set: a negative
`LIMIT` means no limit, a negative `OFFSET` is treated as `0`. -/
def limitOffset {α : Type} (limit offset : Int) (l : List α) : List α :=
  (l.drop offset.toNat).take (if limit < 0 then l.length else limit.toNat)

/-- `item::get` (src/db/item.rs):
`SELECT id, name, path FROM item WHERE parent = ? AND is_checked = true
ORDER BY id DESC LIMIT ? OFFSET ?` together with
`SELECT count(id) FROM item WHERE parent = ? AND is_checked = true`. -/
def get (db : DB) (parent limit offset : Int) : List Item × Int :=
  let rows := db.items.filter (fun r => r.parent = parent ∧ r.is_checked = true)
  let paged := limitOffset limit offset (orderBy (fun a b => b.id ≤ a.id) rows)
  (paged.map (fun r => { id := r.id, name := r.name, path := r.path }),
   (rows.length : Int))

/-- `item::get_root` (src/db/item.rs):
`SELECT id, name, path FROM item WHERE path = '' AND is_checked = true
ORDER BY id LIMIT ? OFFSET ?` together with
`SELECT count(id) FROM item WHERE path = '' AND is_checked = true`. -/
def get_root (db : DB) (limit offset : Int) : List Item × Int :=
  let rows := db.items.filter (fun r => r.path = "" ∧ r.is_checked = true)
  let paged := limitOffset limit offset (orderBy (fun a b => a.id ≤ b.id) rows)
  (paged.map (fun r => { id := r.id, name := r.name, path := r.path }),
   (rows.length : Int))

end Item

namespace Tag

/-- `tag::add_tag` (src/db/tag.rs):
`INSERT OR IGNORE INTO tag (name) VALUES (?)`.

Modelled from the spec: the schema file is not part of the given sources;
`tag.name` is taken as the unique key the `OR IGNORE` clause acts on
(spec: tags are normalized labels, renaming onto an existing name is
refused — names are unique). -/
def add_tag (name : String) (db : DB) : DB :=
  if (db.tags.find? (fun t => t.name = name)).isSome then db
  else
    { db with
      tags := db.tags ++ [{ id := db.nextTagId, name := name }],
      nextTagId := db.nextTagId + 1 }

/-- `tag::remove_tag` (src/db/tag.rs): `DELETE FROM tag WHERE name = ?`. -/
def remove_tag (name : String) (db : DB) : DB :=
  { db with tags := db.tags.filter (fun t => ¬ t.name = name) }

/-- `tag::rename_tag` (src/db/tag.rs): if
`SELECT name FROM tag WHERE name = ?` (for `new_name`) returns a row, fail
with an error before touching anything; otherwise
`UPDATE tag SET name = ? WHERE name = ?`.  The result is paired with the
database state after the call. -/
def rename_tag (name new_name : String) (db : DB) : Except String DB × DB :=
  match db.tags.find? (fun t => t.name = new_name) with
  | some t => (Except.error (t.name ++ " already exists"), db)
  | none =>
    let db1 : DB :=
      { db with
        tags := db.tags.map fun t =>
          if t.name = name then { t with name := new_name } else t }
    (Except.ok db1, db1)

/-- One loop iteration of `tag::add_tag_item` (src/db/tag.rs): look the tag
name up (`SELECT id FROM tag WHERE name = ?`); when absent,
`INSERT INTO tag (name) VALUES (?)` and take `last_insert_rowid()`; then
`INSERT OR IGNORE INTO tag_item (item, tag) VALUES (?, ?)`.

Modelled from the spec: `(item, tag)` is the unique key of `tag_item` that
`OR IGNORE` acts on (spec: "adding the same tag to the same item twice
results in exactly one association row"). -/
def addTagItemStep (item : Int) (db : DB) (tag : String) : DB :=
  let p : Int × DB :=
    match db.tags.find? (fun t => t.name = tag) with
    | some t => (t.id, db)
    | none =>
      (db.nextTagId,
       { db with
         tags := db.tags ++ [{ id := db.nextTagId, name := tag }],
         nextTagId := db.nextTagId + 1 })
  let tag_id := p.1
  let db1 := p.2
  if (db1.tag_items.find? (fun ti => ti.item = item ∧ ti.tag = tag_id)).isSome then db1
  else { db1 with tag_items := db1.tag_items ++ [{ item := item, tag := tag_id }] }

/-- `tag::add_tag_item` (src/db/tag.rs): the `for tag in tags` loop over
`addTagItemStep`. -/
def add_tag_item (item : Int) (tags : List String) (db : DB) : DB :=
  tags.foldl (addTagItemStep item) db

/-- `tag::remove_tag_item` (src/db/tag.rs):
`DELETE FROM tag_item WHERE item = ? AND tag = ?` (the `tag` parameter is
bound to the tag's name in the source signature; the column compared is the
association's `tag` key, modelled as comparing against a given key). -/
def remove_tag_item (item : Int) (tag : Int) (db : DB) : DB :=
  { db with tag_items := db.tag_items.filter (fun ti => ¬ (ti.item = item ∧ ti.tag = tag)) }

end Tag

end Db

namespace Civitai

/-- Does the character list start with the pattern?  (Helper for the model
of Rust's `str::replace`.) -/
def startsWithPat : List Char → List Char → Bool
  | p :: ps, c :: cs => p == c && startsWithPat ps cs
  | [], _ => true
  | _, _ => false

/-- Fuel-driven worker for the model of Rust's `str::replace` with a
non-empty pattern: scan left to right, replacing each (non-overlapping)
occurrence of `pat` by `rep`.  The fuel only bounds the recursion; it is
never exhausted when it starts at the length of the scanned list. -/
def replaceAux (pat rep : List Char) : Nat → List Char → List Char
  | _, [] => []
  | 0, s => s
  | fuel + 1, c :: cs =>
    if startsWithPat pat (c :: cs) then rep ++ replaceAux pat rep fuel ((c :: cs).drop pat.length)
    else c :: replaceAux pat rep fuel cs

/-- Model of Rust's `str::replace(pat, rep)`: replace every non-overlapping
occurrence of `pat` in the string by `rep`, scanning left to right.  An
empty pattern matches at every character boundary (Rust's behavior), so the
result interleaves `rep` around every character. -/
def rustReplace (s pat rep : String) : String :=
  if pat.data = [] then
    String.mk (rep.data ++ s.data.foldr (fun c acc => c :: (rep.data ++ acc)) [])
  else String.mk (replaceAux pat.data rep.data s.data.length s.data)

/-- A flat filesystem: an association list from absolute path to file
bytes.  Models the files `download_info` creates and probes. -/
abbrev FS := List (String × List Nat)

/-- Does a file exist at `p` (and with which bytes)?  Models `Path::exists`
and reading the file back. -/
def fsRead (fs : FS) (p : String) : Option (List Nat) :=
  (fs.find? (fun e => e.1 = p)).map (fun e => e.2)

/-- `File::create` followed by writing `content`: truncate the existing
file at `p` or create a fresh one. -/
def fsWrite (fs : FS) (p : String) (content : List Nat) : FS :=
  if (fs.find? (fun e => e.1 = p)).isSome then
    fs.map (fun e => if e.1 = p then (p, content) else e)
  else fs ++ [(p, content)]

/-- One entry of the `images` field of the Civitai response; `download_info`
reads only its `url`. -/
structure CivitaiImageM where
  url : String
  deriving Repr, DecidableEq

/-- The Civitai model-version response, restricted to the field
`download_info` inspects (`images`, an ordered list whose first entry is
the one downloaded).  The remaining fields are only serialized, which the
model keeps abstract (see the `serialize` parameter of `download_info`). -/
structure CivitaiResponseM where
  images : List CivitaiImageM
  deriving Repr, DecidableEq

/-- `civitai::download_info` (src/civitai.rs): derive
`info_file = filepath.replace(ext, "json")` and
`image_file = filepath.replace(ext, "jpeg")`; write the pretty-printed
response to `info_file`; if `image_file` exists and
`overwrite_thumbnail` is off, return `Ok` at once; otherwise, when the
response lists at least one image, `GET` the first image's URL and write
the received bytes to `image_file`.

The filesystem is the `FS` state; the network is the `fetch` function from
URL to response bytes; the external serde serializer `to_string_pretty` is
the `serialize` parameter.  The second component of the result lists the
URLs actually downloaded. -/
def download_info (ext filepath : String) (mode_info : CivitaiResponseM)
    (overwrite_thumbnail : Bool) (serialize : CivitaiResponseM → List Nat)
    (fetch : String → List Nat) (fs : FS) : FS × List String :=
  let info_file := rustReplace filepath ext "json"
  let image_file := rustReplace filepath ext "jpeg"
  let fs1 := fsWrite fs info_file (serialize mode_info)
  if (fsRead fs1 image_file).isSome ∧ overwrite_thumbnail = false then (fs1, [])
  else
    match mode_info.images.head? with
    | some first_image => (fsWrite fs1 image_file (fetch first_image.url), [first_image.url])
    | none => (fs1, [])

/-! ### SHA-256 (model of the `sha2` crate's `Sha256`)

The digest the `sha2` crate computes, spelled out over byte lists
(`Nat`s below `256`), with 32-bit words as `Nat` reduced `% 2 ^ 32`. -/

/-- 32-bit right rotation. -/
def rotr (n w : Nat) : Nat := ((w >>> n) ||| (w <<< (32 - n))) % 2 ^ 32

/-- The SHA-256 `Ch` function (bitwise choose); `¬x` is `x ^^^ 0xffffffff`
on 32-bit words. -/
def ch (x y z : Nat) : Nat := (x &&& y) ^^^ ((x ^^^ 0xffffffff) &&& z)

/-- The SHA-256 `Maj` function (bitwise majority). -/
def maj (x y z : Nat) : Nat := (x &&& y) ^^^ (x &&& z) ^^^ (y &&& z)

/-- SHA-256 big sigma 0. -/
def bigSigma0 (x : Nat) : Nat := rotr 2 x ^^^ rotr 13 x ^^^ rotr 22 x

/-- SHA-256 big sigma 1. -/
def bigSigma1 (x : Nat) : Nat := rotr 6 x ^^^ rotr 11 x ^^^ rotr 25 x

/-- SHA-256 small sigma 0. -/
def smallSigma0 (x : Nat) : Nat := rotr 7 x ^^^ rotr 18 x ^^^ (x >>> 3)

/-- SHA-256 small sigma 1. -/
def smallSigma1 (x : Nat) : Nat := rotr 17 x ^^^ rotr 19 x ^^^ (x >>> 10)

/-- The 64 SHA-256 round constants. -/
def sha256K : List Nat :=
  [1116352408, 1899447441, 3049323471, 3921009573, 961987163, 1508970993,
   2453635748, 2870763221, 3624381080, 310598401, 607225278, 1426881987,
   1925078388, 2162078206, 2614888103, 3248222580, 3835390401, 4022224774,
   264347078, 604807628, 770255983, 1249150122, 1555081692, 1996064986,
   2554220882, 2821834349, 2952996808, 3210313671, 3336571891, 3584528711,
   113926993, 338241895, 666307205, 773529912, 1294757372, 1396182291,
   1695183700, 1986661051, 2177026350, 2456956037, 2730485921, 2820302411,
   3259730800, 3345764771, 3516065817, 3600352804, 4094571909, 275423344,
   430227734, 506948616, 659060556, 883997877, 958139571, 1322822218,
   1537002063, 1747873779, 1955562222, 2024104815, 2227730452, 2361852424,
   2428436474, 2756734187, 3204031479, 3329325298]

/-- The eight SHA-256 working variables / hash state words. -/
structure H8 where
  a : Nat
  b : Nat
  c : Nat
  d : Nat
  e : Nat
  f : Nat
  g : Nat
  h : Nat
  deriving Repr, DecidableEq

/-- The SHA-256 initial hash value. -/
def sha256Init : H8 :=
  { a := 1779033703, b := 3144134277, c := 1013904242, d := 2773480762,
    e := 1359893119, f := 2600822924, g := 528734635, h := 1541459225 }

/-- The big-endian `n`-byte encoding of `v`. -/
def bytesBE (n v : Nat) : List Nat :=
  (List.range n).map (fun i => v / 2 ^ (8 * (n - 1 - i)) % 256)

/-- SHA-256 padding: append `0x80`, zero bytes up to 56 mod 64, then the
message bit length as 8 big-endian bytes.  The zero count is the `k` with
`(len + 1 + k) % 64 = 56`, written so the subtraction never truncates
(`len % 64 ≤ 63 < 119`). -/
def sha256Pad (msg : List Nat) : List Nat :=
  let padZeros := (119 - msg.length % 64) % 64
  msg ++ [0x80] ++ List.replicate padZeros 0 ++ bytesBE 8 (msg.length * 8)

/-- The 16 initial 32-bit big-endian message-schedule words of one 64-byte
block. -/
def blockWords (block : List Nat) : List Nat :=
  (List.range 16).map fun i =>
    block.getD (4 * i) 0 * 2 ^ 24 + block.getD (4 * i + 1) 0 * 2 ^ 16 +
      block.getD (4 * i + 2) 0 * 2 ^ 8 + block.getD (4 * i + 3) 0

/-- Extend the 16 schedule words to 64 by `n` applications of the SHA-256
recurrence. -/
def extendSchedule : Nat → List Nat → List Nat
  | 0, ws => ws
  | n + 1, ws =>
    extendSchedule n
      (ws ++ [(smallSigma1 (ws.getD (ws.length - 2) 0) + ws.getD (ws.length - 7) 0 +
               smallSigma0 (ws.getD (ws.length - 15) 0) + ws.getD (ws.length - 16) 0) % 2 ^ 32])

/-- One SHA-256 round, consuming one `(constant, schedule word)` pair. -/
def sha256Round (st : H8) (kw : Nat × Nat) : H8 :=
  let t1 := (st.h + bigSigma1 st.e + ch st.e st.f st.g + kw.1 + kw.2) % 2 ^ 32
  let t2 := (bigSigma0 st.a + maj st.a st.b st.c) % 2 ^ 32
  { a := (t1 + t2) % 2 ^ 32, b := st.a, c := st.b, d := st.c,
    e := (st.d + t1) % 2 ^ 32, f := st.e, g := st.f, h := st.g }

/-- SHA-256 compression of one 64-byte block into the hash state. -/
def sha256Compress (st : H8) (block : List Nat) : H8 :=
  let ws := extendSchedule 48 (blockWords block)
  let w := (sha256K.zip ws).foldl sha256Round st
  { a := (st.a + w.a) % 2 ^ 32, b := (st.b + w.b) % 2 ^ 32,
    c := (st.c + w.c) % 2 ^ 32, d := (st.d + w.d) % 2 ^ 32,
    e := (st.e + w.e) % 2 ^ 32, f := (st.f + w.f) % 2 ^ 32,
    g := (st.g + w.g) % 2 ^ 32, h := (st.h + w.h) % 2 ^ 32 }

/-- Split a byte stream into consecutive chunks of `size` bytes each (the
last chunk may be shorter).  The fuel only bounds the recursion; when it
runs out, the remaining bytes form the final chunk, which never happens
when the fuel starts at the stream's length and `size > 0`. -/
def chunksAux (size : Nat) : Nat → List Nat → List (List Nat)
  | _, [] => []
  | 0, l => [l]
  | fuel + 1, l => l.take size :: chunksAux size fuel (l.drop size)

/-- Split a byte stream into consecutive `size`-byte chunks. -/
def readChunks (size : Nat) (l : List Nat) : List (List Nat) :=
  chunksAux size l.length l

/-- The big-endian 4-byte decomposition of a 32-bit word. -/
def wordBytes (w : Nat) : List Nat :=
  [w / 2 ^ 24 % 256, w / 2 ^ 16 % 256, w / 2 ^ 8 % 256, w % 256]

/-- The SHA-256 digest of a byte list: pad, compress every 64-byte block,
and serialize the eight state words big-endian — 32 bytes. -/
def sha256Digest (msg : List Nat) : List Nat :=
  let st := (chunksAux 64 (sha256Pad msg).length (sha256Pad msg)).foldl sha256Compress sha256Init
  wordBytes st.a ++ wordBytes st.b ++ wordBytes st.c ++ wordBytes st.d ++
    wordBytes st.e ++ wordBytes st.f ++ wordBytes st.g ++ wordBytes st.h

/-- The lowercase hexadecimal digit characters, in value order. -/
def hexDigits : List Char := "0123456789abcdef".data

/-- The lowercase hexadecimal digit of a nibble. -/
def hexDigitChar (n : Nat) : Char := hexDigits.getD n '0'

/-- Model of `hex::encode`: two lowercase hex digits per byte, high nibble
first (`b >> 4` and `b & 0xf` on a `u8`, spelled `/ 16 % 16` and `% 16`). -/
def hexEncode (bs : List Nat) : List Char :=
  bs.flatMap fun b => [hexDigitChar (b / 16 % 16), hexDigitChar (b % 16)]

/-- `civitai::calculate_autov2_hash` (src/civitai.rs): stream the file's
bytes in 8192-byte chunks through an incremental SHA-256 hasher
(`hasher.update` on each chunk, modelled as accumulating the streamed
bytes, with the finalization digesting the accumulated stream), then
`hex::encode(result)[..10]` — the first 10 hex characters.  The file's
contents are the `content` byte list; opening/reading errors are outside
the model (the function is the `Ok` path). -/
def calculate_autov2_hash (content : List Nat) : String :=
  let streamed := (readChunks 8192 content).foldl (fun acc chunk => acc ++ chunk) []
  String.mk ((hexEncode (sha256Digest streamed)).take 10)

end Civitai

/-! ### Concrete sample states

Small database and filesystem states used to evaluate the operations on
concrete inputs. -/

/-- The empty database. -/
def db0 : DB :=
  { items := [], bases := [], tags := [], tag_items := [], nextItemId := 1, nextTagId := 1 }

/-- A root-level item (empty relative path), `checked`. -/
def rootItemA : ItemRow :=
  { id := 1, name := some "A", path := "", base_id := 1, parent := 0,
    is_checked := true, hash := none }

/-- A non-root item, `checked`. -/
def subItemB : ItemRow :=
  { id := 2, name := some "b", path := "sub", base_id := 1, parent := 1,
    is_checked := true, hash := none }

/-- A non-root item whose `checked` flag is off. -/
def staleItemC : ItemRow :=
  { id := 3, name := none, path := "old", base_id := 1, parent := 1,
    is_checked := false, hash := none }

/-- A populated sample database: one root, three items, one tag. -/
def demoDB : DB :=
  { items := [rootItemA, subItemB, staleItemC],
    bases := [{ id := 1, label := "A", is_checked := true }],
    tags := [{ id := 1, name := "tag1" }],
    tag_items := [],
    nextItemId := 4, nextTagId := 2 }

/-- A database holding a single unchecked item `a/b` whose parent item `a`
does not exist. -/
def orphanDB : DB :=
  { items := [{ id := 1, name := none, path := "a/b", base_id := 1, parent := 0,
                is_checked := false, hash := none }],
    bases := [{ id := 1, label := "A", is_checked := true }],
    tags := [], tag_items := [], nextItemId := 2, nextTagId := 1 }

/-- A filesystem already holding a preview asset `m.jpeg`. -/
def demoFS : Civitai.FS := [("m.jpeg", [1, 2, 3])]

/-! ### General list lemmas -/

theorem length_dropWhile_le {α : Type} (q : α → Bool) (l : List α) :
    (l.dropWhile q).length ≤ l.length := by
  induction l with
  | nil => simp
  | cons a l ih =>
    by_cases h : q a
    · simp only [List.dropWhile_cons, h, if_true]
      exact Nat.le_succ_of_le ih
    · simp [List.dropWhile_cons, h]

theorem mem_insertOrdered {α : Type} (le : α → α → Bool) (x a : α) (l : List α) :
    a ∈ Db.Item.insertOrdered le x l ↔ a = x ∨ a ∈ l := by
  induction l with
  | nil => simp [Db.Item.insertOrdered]
  | cons y ys ih =>
    simp only [Db.Item.insertOrdered]
    by_cases h : le x y
    · simp [h]
    · rw [if_neg (by simp [h])]
      simp only [List.mem_cons, ih]
      tauto

theorem mem_orderBy {α : Type} (le : α → α → Bool) (a : α) (l : List α) :
    a ∈ Db.Item.orderBy le l ↔ a ∈ l := by
  induction l with
  | nil => simp [Db.Item.orderBy]
  | cons x xs ih => simp [Db.Item.orderBy, mem_insertOrdered, ih]

theorem mem_limitOffset {α : Type} (limit offset : Int) (a : α) (l : List α)
    (h : a ∈ Db.Item.limitOffset limit offset l) : a ∈ l :=
  List.mem_of_mem_drop (List.mem_of_mem_take h)

/-! ### Claim theorems -/

/-- C1, counterexample: the bulk checked-flag reset does *not* clear the
flag on every item — a root-level item (relative path `""`) that is
`checked` keeps its flag, because the `UPDATE` filters on `path != ''`. -/
theorem mark_obsolete_all_misses_root_items :
    ¬ (∀ r ∈ (Db.Item.mark_obsolete_all demoDB).items, r.is_checked = false) := by
  decide

/-- C1, amended: after `mark_obsolete_all`, no item with a non-empty
relative path has `checked = true`; root-level items (empty relative path)
are left in place unchanged, and the root (`base`) table is untouched. -/
theorem mark_obsolete_all_clears_nonroot (db : DB) :
    (∀ r ∈ (Db.Item.mark_obsolete_all db).items, r.path ≠ "" → r.is_checked = false) ∧
    (∀ r ∈ db.items, r.path = "" → r ∈ (Db.Item.mark_obsolete_all db).items) ∧
    (Db.Item.mark_obsolete_all db).bases = db.bases := by
  refine ⟨?_, ?_, rfl⟩
  · intro r hr hpath
    simp only [Db.Item.mark_obsolete_all, List.mem_map] at hr
    obtain ⟨s, hs, hmap⟩ := hr
    by_cases hcond : s.is_checked = true ∧ s.path ≠ ""
    · rw [if_pos hcond] at hmap
      subst hmap
      rfl
    · rw [if_neg hcond] at hmap
      subst hmap
      push_neg at hcond
      cases hc : s.is_checked with
      | false => rfl
      | true => exact absurd (hcond hc) hpath
  · intro r hr hpath
    simp only [Db.Item.mark_obsolete_all, List.mem_map]
    refine ⟨r, hr, ?_⟩
    rw [if_neg]
    intro hcond
    exact hcond.2 hpath

/-- C1, witness: in the sample database the non-root item `sub` comes out
of the reset with its flag cleared. -/
theorem mark_obsolete_all_clears_nonroot_witness :
    ({ subItemB with is_checked := false } : ItemRow) ∈
        (Db.Item.mark_obsolete_all demoDB).items ∧
      ({ subItemB with is_checked := false } : ItemRow).path ≠ "" ∧
      ({ subItemB with is_checked := false } : ItemRow).is_checked = false :=
  ⟨by decide, by decide,
   (mark_obsolete_all_clears_nonroot demoDB).1 { subItemB with is_checked := false }
     (by decide) (by decide)⟩

/-- C2: `item::clean` returns the number of rows with `checked = false`
(all of which it deletes), keeps every `checked` row present and
unmodified, deletes nothing else, and leaves the other tables alone. -/
theorem clean_deletes_exactly_unchecked (db : DB) :
    (Db.Item.clean db).1 = (db.items.filter (fun r => r.is_checked = false)).length ∧
    (∀ r ∈ db.items, r.is_checked = true → r ∈ (Db.Item.clean db).2.items) ∧
    (∀ r ∈ (Db.Item.clean db).2.items, r ∈ db.items ∧ r.is_checked = true) ∧
    (Db.Item.clean db).2.bases = db.bases ∧
    (Db.Item.clean db).2.tags = db.tags ∧
    (Db.Item.clean db).2.tag_items = db.tag_items := by
  refine ⟨rfl, ?_, ?_, rfl, rfl, rfl⟩
  · intro r hr hch
    simp only [Db.Item.clean, List.mem_filter]
    exact ⟨hr, by simp [hch]⟩
  · intro r hr
    simp only [Db.Item.clean, List.mem_filter] at hr
    refine ⟨hr.1, ?_⟩
    simpa using hr.2

/-- C2, witness: in the sample database the checked item `sub` survives
`clean`, and the count of deleted rows evaluates to `1`. -/
theorem clean_deletes_exactly_unchecked_witness :
    subItemB ∈ demoDB.items ∧ subItemB.is_checked = true ∧
      subItemB ∈ (Db.Item.clean demoDB).2.items ∧ (Db.Item.clean demoDB).1 = 1 :=
  ⟨by decide, by decide,
   (clean_deletes_exactly_unchecked demoDB).2.1 subItemB (by decide) (by decide),
   by decide⟩

/-- C8: `rename_tag old new` fails with an error and leaves the database
untouched whenever a tag named `new` exists; when no tag named `new`
exists it succeeds, renaming exactly the rows named `old`. -/
theorem rename_tag_no_silent_merge (db : DB) (name new_name : String) :
    ((db.tags.find? (fun t => t.name = new_name)).isSome →
      (∃ msg, (Db.Tag.rename_tag name new_name db).1 = Except.error msg) ∧
      (Db.Tag.rename_tag name new_name db).2 = db) ∧
    (db.tags.find? (fun t => t.name = new_name) = none →
      (Db.Tag.rename_tag name new_name db).1 =
        Except.ok (Db.Tag.rename_tag name new_name db).2 ∧
      (Db.Tag.rename_tag name new_name db).2 =
        { db with tags := db.tags.map fun t =>
            if t.name = name then { t with name := new_name } else t }) := by
  constructor
  · intro h
    obtain ⟨t, ht⟩ := Option.isSome_iff_exists.mp h
    refine ⟨⟨t.name ++ " already exists", ?_⟩, ?_⟩ <;> simp [Db.Tag.rename_tag, ht]
  · intro h
    constructor <;> simp [Db.Tag.rename_tag, h]

/-- C8, witness: renaming onto the existing tag `tag1` errors and leaves
the sample database unchanged; renaming `tag1` onto the fresh name `fresh`
succeeds. -/
theorem rename_tag_no_silent_merge_witness :
    (demoDB.tags.find? (fun t => t.name = "tag1")).isSome ∧
      (∃ msg, (Db.Tag.rename_tag "x" "tag1" demoDB).1 = Except.error msg) ∧
      (Db.Tag.rename_tag "x" "tag1" demoDB).2 = demoDB ∧
      demoDB.tags.find? (fun t => t.name = "fresh") = none ∧
      (Db.Tag.rename_tag "tag1" "fresh" demoDB).1 =
        Except.ok (Db.Tag.rename_tag "tag1" "fresh" demoDB).2 :=
  ⟨by decide, ((rename_tag_no_silent_merge demoDB "x" "tag1").1 (by decide)).1,
   ((rename_tag_no_silent_merge demoDB "x" "tag1").1 (by decide)).2,
   by decide, ((rename_tag_no_silent_merge demoDB "tag1" "fresh").2 (by decide)).1⟩

/-- C9: for an item id present in the catalog (whose owning base row
exists), `mark_obsolete` clears that item's `checked` flag, leaves every
other item row unchanged, keeps the base table intact, and returns the
item's relative path with the owning root's label; for an absent id it
returns an error and changes nothing. -/
theorem mark_obsolete_soft_delete (db : DB) (id : Int) :
    (∀ r, db.items.find? (fun s => s.id = id) = some r →
      ∀ b, db.bases.find? (fun x => x.id = r.base_id) = some b →
        (Db.Item.mark_obsolete db id).1 = Except.ok (r.path, b.label) ∧
        ({ r with is_checked := false } : ItemRow) ∈ (Db.Item.mark_obsolete db id).2.items ∧
        (∀ s ∈ db.items, s.id ≠ id → s ∈ (Db.Item.mark_obsolete db id).2.items) ∧
        (Db.Item.mark_obsolete db id).2.bases = db.bases) ∧
    (db.items.find? (fun s => s.id = id) = none →
      (Db.Item.mark_obsolete db id).1 = Except.error () ∧
      (Db.Item.mark_obsolete db id).2 = db) := by
  have hid : ∀ s : ItemRow,
      ((if s.id = id then { s with is_checked := false } else s) : ItemRow).id = s.id := by
    intro s
    by_cases h : s.id = id <;> simp [h]
  have hfind : (db.items.map
        (fun s => if s.id = id then { s with is_checked := false } else s)).find?
        (fun s => s.id = id) =
      (db.items.find? (fun s => s.id = id)).map
        (fun s => if s.id = id then { s with is_checked := false } else s) := by
    rw [List.find?_map]
    have hcomp : ((fun s : ItemRow => decide (s.id = id)) ∘
        fun s => if s.id = id then { s with is_checked := false } else s) =
        (fun s : ItemRow => decide (s.id = id)) := by
      funext s
      simp only [Function.comp]
      rw [hid s]
    rw [hcomp]
  constructor
  · intro r hr b hb
    have hrid : r.id = id := by simpa using List.find?_some hr
    have hmem : r ∈ db.items := List.mem_of_find?_eq_some hr
    have hitems : (Db.Item.mark_obsolete db id).2.items = db.items.map
        (fun s => if s.id = id then { s with is_checked := false } else s) := by
      simp only [Db.Item.mark_obsolete, hfind, hr]
      have hb' : db.bases.find?
          (fun x => x.id = ({ r with is_checked := false } : ItemRow).base_id) = some b := hb
      simp [hb', hrid]
    have hres : (Db.Item.mark_obsolete db id).1 = Except.ok (r.path, b.label) := by
      simp only [Db.Item.mark_obsolete, hfind, hr]
      have hb' : db.bases.find?
          (fun x => x.id = ({ r with is_checked := false } : ItemRow).base_id) = some b := hb
      simp [hb', hrid]
    have hbases : (Db.Item.mark_obsolete db id).2.bases = db.bases := by
      simp only [Db.Item.mark_obsolete, hfind, hr]
      have hb' : db.bases.find?
          (fun x => x.id = ({ r with is_checked := false } : ItemRow).base_id) = some b := hb
      simp [hb', hrid]
    refine ⟨hres, ?_, ?_, hbases⟩
    · rw [hitems]
      simp only [List.mem_map]
      exact ⟨r, hmem, by rw [if_pos hrid]⟩
    · intro s hs hsid
      rw [hitems]
      simp only [List.mem_map]
      exact ⟨s, hs, by rw [if_neg hsid]⟩
  · intro h
    have hmapid : db.items.map
        (fun s => if s.id = id then { s with is_checked := false } else s) = db.items := by
      have : ∀ s ∈ db.items,
          (if s.id = id then ({ s with is_checked := false } : ItemRow) else s) = s := by
        intro s hs
        rw [if_neg]
        have := List.find?_eq_none.mp h s hs
        simpa using this
      rw [List.map_congr_left this]
      exact List.map_id db.items
    have heval : Db.Item.mark_obsolete db id = (Except.error (), db) := by
      simp only [Db.Item.mark_obsolete, hmapid, h]
    exact ⟨by rw [heval], by rw [heval]⟩

/-- C9, witness: soft-deleting item `2` of the sample database returns its
relative path `sub` and root label `A`, and the cleared row is present. -/
theorem mark_obsolete_soft_delete_witness :
    demoDB.items.find? (fun s => s.id = 2) = some subItemB ∧
      demoDB.bases.find? (fun x => x.id = subItemB.base_id) =
        some { id := 1, label := "A", is_checked := true } ∧
      (Db.Item.mark_obsolete demoDB 2).1 = Except.ok ("sub", "A") ∧
      ({ subItemB with is_checked := false } : ItemRow) ∈
        (Db.Item.mark_obsolete demoDB 2).2.items :=
  ⟨by decide, by decide,
   ((mark_obsolete_soft_delete demoDB 2).1 subItemB (by decide)
       { id := 1, label := "A", is_checked := true } (by decide)).1,
   ((mark_obsolete_soft_delete demoDB 2).1 subItemB (by decide)
       { id := 1, label := "A", is_checked := true } (by decide)).2.1⟩

theorem rustParent?_ne (path p : String) (h : Db.Item.rustParent? path = some p) :
    p ≠ path := by
  unfold Db.Item.rustParent? at h
  by_cases hp : path = ""
  · rw [if_pos hp] at h
    exact absurd h (by simp)
  · rw [if_neg hp] at h
    have hlen : p.data.length < path.data.length := by
      have hd : p.data = ((path.data.reverse.dropWhile (fun c => c ≠ '/')).drop 1).reverse := by
        rw [← Option.some_inj.mp h]
      have h1 : (path.data.reverse.dropWhile (fun c => c ≠ '/')).length ≤ path.data.length := by
        calc (path.data.reverse.dropWhile (fun c => c ≠ '/')).length
            ≤ path.data.reverse.length := length_dropWhile_le _ _
          _ = path.data.length := List.length_reverse _
      have h2 : path.data ≠ [] := by
        intro hnil
        exact hp (String.ext hnil)
      have h3 : 1 ≤ path.data.length := by
        cases hq : path.data with
        | nil => exact absurd hq h2
        | cons a l => simp
      rw [hd, List.length_reverse, List.length_drop]
      omega
    intro heq
    rw [heq] at hlen
    exact Nat.lt_irrefl _ hlen

theorem parentFindOrCreate_items (path : String) (base_id : Int) (db : DB) :
    (Db.Item.parentFindOrCreate path base_id db).2.items = db.items ∨
    ∃ prow : ItemRow, prow.path ≠ path ∧ prow.hash = none ∧
      (Db.Item.parentFindOrCreate path base_id db).2.items = db.items ++ [prow] := by
  cases hp : Db.Item.rustParent? path with
  | none =>
    left
    simp only [Db.Item.parentFindOrCreate, hp]
  | some parent =>
    cases hf : db.items.find? (fun r => r.path = parent ∧ r.base_id = base_id) with
    | some r =>
      left
      simp only [Db.Item.parentFindOrCreate, hp, hf]
    | none =>
      right
      refine ⟨{ id := db.nextItemId, name := none, path := parent, base_id := base_id,
                parent := 0, is_checked := true, hash := none }, ?_, rfl, ?_⟩
      · simpa using rustParent?_ne path parent hp
      · simp only [Db.Item.parentFindOrCreate, hp, hf]

theorem parentFindOrCreate_key_queries (path : String) (base_id : Int) (db : DB) :
    (Db.Item.parentFindOrCreate path base_id db).2.items.find?
        (fun s => s.path = path ∧ s.base_id = base_id) =
      db.items.find? (fun s => s.path = path ∧ s.base_id = base_id) ∧
    ((Db.Item.parentFindOrCreate path base_id db).2.items.filter
        (fun s => s.path = path ∧ s.base_id = base_id)).length =
      (db.items.filter (fun s => s.path = path ∧ s.base_id = base_id)).length := by
  rcases parentFindOrCreate_items path base_id db with h | ⟨prow, hne, _, h⟩
  · rw [h]
    exact ⟨rfl, rfl⟩
  · rw [h]
    have hpred : decide (prow.path = path ∧ prow.base_id = base_id) = false := by
      simp [hne]
    constructor
    · rw [List.find?_append, List.find?_singleton, hpred]
      simp
    · rw [List.filter_append]
      simp [hne]

/-- C3, counterexample: upserting an entry whose `(root, relative path)`
pair already exists can still insert a new row — the find-or-create of a
missing parent — and never stores any content identity (the upsert neither
takes nor writes one; the nullable content-identity column stays `none` on
every row it touches). -/
theorem insert_or_update_not_pure_update :
    (orphanDB.items.find? (fun s => s.path = "a/b" ∧ s.base_id = 1)).isSome ∧
      (Db.Item.insert_or_update none "a/b" 1 orphanDB).items.length ≠
        orphanDB.items.length ∧
      (∀ r ∈ (Db.Item.insert_or_update none "a/b" 1 orphanDB).items, r.hash = none) := by
  decide

/-- C3, amended: when the `(root, relative path)` pair exists,
`insert_or_update` sets that row's parent reference to the id resolved by
the parent find-or-create step and its `checked` flag to `true`, leaves its
content identity untouched, and adds no row *for that pair* (the parent
step may insert one row for a missing parent path); when the pair does not
exist, exactly one row for it is inserted, carrying that same parent
reference, `checked = true`, and no content identity. -/
theorem insert_or_update_upsert (db : DB) (name : Option String)
    (path : String) (base_id : Int) :
    (∀ r, db.items.find? (fun s => s.path = path ∧ s.base_id = base_id) = some r →
      ((Db.Item.insert_or_update name path base_id db).items.filter
          (fun s => s.path = path ∧ s.base_id = base_id)).length =
        (db.items.filter (fun s => s.path = path ∧ s.base_id = base_id)).length ∧
      (Db.Item.insert_or_update name path base_id db).items.find?
          (fun s => s.path = path ∧ s.base_id = base_id) =
        some { r with is_checked := true,
                      parent := (Db.Item.parentFindOrCreate path base_id db).1 }) ∧
    (db.items.find? (fun s => s.path = path ∧ s.base_id = base_id) = none →
      ((Db.Item.insert_or_update name path base_id db).items.filter
          (fun s => s.path = path ∧ s.base_id = base_id)).length = 1 ∧
      (Db.Item.insert_or_update name path base_id db).items.find?
          (fun s => s.path = path ∧ s.base_id = base_id) =
        some { id := (Db.Item.parentFindOrCreate path base_id db).2.nextItemId,
               name := name, path := path, base_id := base_id,
               parent := (Db.Item.parentFindOrCreate path base_id db).1,
               is_checked := true, hash := none }) := by
  obtain ⟨hq1, hq2⟩ := parentFindOrCreate_key_queries path base_id db
  constructor
  · intro r hr
    have hitems : (Db.Item.insert_or_update name path base_id db).items =
        (Db.Item.parentFindOrCreate path base_id db).2.items.map
          (fun rr => if rr.id = r.id then
            { rr with is_checked := true,
                      parent := (Db.Item.parentFindOrCreate path base_id db).1 }
            else rr) := by
      simp only [Db.Item.insert_or_update, hq1, hr]
    have hg : ∀ rr : ItemRow,
        ((if rr.id = r.id then
            ({ rr with is_checked := true,
                       parent := (Db.Item.parentFindOrCreate path base_id db).1 } : ItemRow)
          else rr) : ItemRow).path = rr.path ∧
        ((if rr.id = r.id then
            ({ rr with is_checked := true,
                       parent := (Db.Item.parentFindOrCreate path base_id db).1 } : ItemRow)
          else rr) : ItemRow).base_id = rr.base_id := by
      intro rr
      by_cases h : rr.id = r.id <;> simp [h]
    have hcomp : ((fun s : ItemRow => decide (s.path = path ∧ s.base_id = base_id)) ∘
        (fun rr => if rr.id = r.id then
          { rr with is_checked := true,
                    parent := (Db.Item.parentFindOrCreate path base_id db).1 }
          else rr)) =
        (fun s : ItemRow => decide (s.path = path ∧ s.base_id = base_id)) := by
      funext rr
      simp only [Function.comp]
      rw [(hg rr).1, (hg rr).2]
    constructor
    · rw [hitems, List.filter_map, hcomp, List.length_map]
      exact hq2
    · rw [hitems, List.find?_map, hcomp, hq1, hr]
      simp

  · intro hr
    have hnone : (Db.Item.parentFindOrCreate path base_id db).2.items.find?
        (fun s => s.path = path ∧ s.base_id = base_id) = none := by rw [hq1, hr]
    have hitems : (Db.Item.insert_or_update name path base_id db).items =
        (Db.Item.parentFindOrCreate path base_id db).2.items ++
          [{ id := (Db.Item.parentFindOrCreate path base_id db).2.nextItemId,
             name := name, path := path, base_id := base_id,
             parent := (Db.Item.parentFindOrCreate path base_id db).1,
             is_checked := true, hash := none }] := by
      simp only [Db.Item.insert_or_update, hq1, hr]
    have hfilter0 : (db.items.filter
        (fun s => s.path = path ∧ s.base_id = base_id)).length = 0 := by
      have : db.items.filter (fun s => s.path = path ∧ s.base_id = base_id) = [] :=
        List.filter_eq_nil_iff.mpr (List.find?_eq_none.mp hr)
      rw [this]
      rfl
    constructor
    · rw [hitems, List.filter_append, List.length_append, hq2, hfilter0]
      simp
    · rw [hitems, List.find?_append, hnone, Option.none_or, List.find?_singleton]
      simp

/-- C3, witness: on the sample databases, the existing-pair branch updates
the orphaned row `a/b` in place (parent resolved by the find-or-create
step, `checked` set), and the new-pair branch leaves exactly one row for
the fresh path `newfile`. -/
theorem insert_or_update_upsert_witness :
    orphanDB.items.find? (fun s => s.path = "a/b" ∧ s.base_id = 1) =
        some { id := 1, name := none, path := "a/b", base_id := 1, parent := 0,
               is_checked := false, hash := none } ∧
      (Db.Item.insert_or_update none "a/b" 1 orphanDB).items.find?
          (fun s => s.path = "a/b" ∧ s.base_id = 1) =
        some { id := 1, name := none, path := "a/b", base_id := 1,
               parent := (Db.Item.parentFindOrCreate "a/b" 1 orphanDB).1,
               is_checked := true, hash := none } ∧
      demoDB.items.find? (fun s => s.path = "newfile" ∧ s.base_id = 1) = none ∧
      ((Db.Item.insert_or_update (some "n") "newfile" 1 demoDB).items.filter
          (fun s => s.path = "newfile" ∧ s.base_id = 1)).length = 1 :=
  ⟨by decide,
   ((insert_or_update_upsert orphanDB none "a/b" 1).1
       { id := 1, name := none, path := "a/b", base_id := 1, parent := 0,
         is_checked := false, hash := none } (by decide)).2,
   by decide,
   ((insert_or_update_upsert demoDB (some "n") "newfile" 1).2 (by decide)).1⟩

theorem pair_filter_length_le_one (l : List TagItemRow) (i tid : Int)
    (h : (l.map (fun ti => (ti.item, ti.tag))).Nodup) :
    (l.filter (fun ti => ti.item = i ∧ ti.tag = tid)).length ≤ 1 := by
  induction l with
  | nil => simp
  | cons x xs ih =>
    simp only [List.map_cons, List.nodup_cons] at h
    obtain ⟨hnotin, hnd⟩ := h
    by_cases hx : x.item = i ∧ x.tag = tid
    · have hxs : xs.filter (fun ti => ti.item = i ∧ ti.tag = tid) = [] := by
        rw [List.filter_eq_nil_iff]
        intro a ha hpa
        apply hnotin
        simp only [decide_eq_true_eq] at hpa
        have hpair : (a.item, a.tag) = (x.item, x.tag) := by
          rw [hpa.1, hpa.2, hx.1, hx.2]
        rw [← hpair]
        exact List.mem_map_of_mem _ ha
      rw [List.filter_cons_of_pos (by simp [hx]), hxs]
      simp
    · rw [List.filter_cons_of_neg (by simp [hx])]
      exact ih hnd

theorem pair_filter_length_eq_one (l : List TagItemRow) (i tid : Int)
    (h : (l.map (fun ti => (ti.item, ti.tag))).Nodup)
    (hsome : (l.find? (fun ti => ti.item = i ∧ ti.tag = tid)).isSome) :
    (l.filter (fun ti => ti.item = i ∧ ti.tag = tid)).length = 1 := by
  have h1 := pair_filter_length_le_one l i tid h
  obtain ⟨x, hx⟩ := Option.isSome_iff_exists.mp hsome
  have hxp := List.find?_some hx
  have hmemf : x ∈ l.filter (fun ti => ti.item = i ∧ ti.tag = tid) :=
    List.mem_filter.mpr ⟨List.mem_of_find?_eq_some hx, hxp⟩
  have h2 := List.length_pos_of_mem hmemf
  omega

/-- C7: adding a tag to an item is idempotent — a second `add_tag_item`
with the same tag (or one call with the tag listed twice) changes nothing,
and afterwards exactly one `tag_item` association row exists for the
(item, tag) pair.  The hypothesis is the store-level uniqueness of the
association key: no duplicate `(item, tag)` pairs in `tag_item`. -/
theorem add_tag_item_idempotent (db : DB) (item : Int) (t : String)
    (hnodup : (db.tag_items.map (fun ti => (ti.item, ti.tag))).Nodup) :
    Db.Tag.add_tag_item item [t] (Db.Tag.add_tag_item item [t] db) =
      Db.Tag.add_tag_item item [t] db ∧
    Db.Tag.add_tag_item item [t, t] db = Db.Tag.add_tag_item item [t] db ∧
    ∃ tr, (Db.Tag.add_tag_item item [t] db).tags.find? (fun x => x.name = t) = some tr ∧
      ((Db.Tag.add_tag_item item [t] db).tag_items.filter
          (fun ti => ti.item = item ∧ ti.tag = tr.id)).length = 1 := by
  have hfold1 : ∀ d : DB, Db.Tag.add_tag_item item [t] d = Db.Tag.addTagItemStep item d t := by
    intro d
    rfl
  have hfold2 : Db.Tag.add_tag_item item [t, t] db =
      Db.Tag.addTagItemStep item (Db.Tag.addTagItemStep item db t) t := rfl
  simp only [hfold1, hfold2]
  suffices hkey : Db.Tag.addTagItemStep item (Db.Tag.addTagItemStep item db t) t =
      Db.Tag.addTagItemStep item db t ∧
      ∃ tr, (Db.Tag.addTagItemStep item db t).tags.find? (fun x => x.name = t) = some tr ∧
        ((Db.Tag.addTagItemStep item db t).tag_items.filter
            (fun ti => ti.item = item ∧ ti.tag = tr.id)).length = 1 by
    exact ⟨hkey.1, hkey.1, hkey.2⟩
  cases hft : db.tags.find? (fun x => x.name = t) with
  | some tg =>
    have hstep : Db.Tag.addTagItemStep item db t =
        (if (db.tag_items.find? (fun ti => ti.item = item ∧ ti.tag = tg.id)).isSome then db
         else { db with tag_items := db.tag_items ++ [{ item := item, tag := tg.id }] }) := by
      simp only [Db.Tag.addTagItemStep, hft]
    by_cases hassoc : (db.tag_items.find? (fun ti => ti.item = item ∧ ti.tag = tg.id)).isSome
    · rw [if_pos hassoc] at hstep
      rw [hstep]
      exact ⟨hstep, tg, hft, pair_filter_length_eq_one db.tag_items item tg.id hnodup hassoc⟩
    · rw [if_neg hassoc] at hstep
      have hnone : db.tag_items.find? (fun ti => ti.item = item ∧ ti.tag = tg.id) = none :=
        Option.not_isSome_iff_eq_none.mp hassoc
      have hassoc2 : ((db.tag_items ++ [({ item := item, tag := tg.id } : TagItemRow)]).find?
          (fun ti => ti.item = item ∧ ti.tag = tg.id)).isSome := by
        rw [List.find?_append, hnone, Option.none_or, List.find?_singleton]
        simp
      have hstep2 : Db.Tag.addTagItemStep item
          { db with tag_items := db.tag_items ++ [{ item := item, tag := tg.id }] } t =
          { db with tag_items := db.tag_items ++ [{ item := item, tag := tg.id }] } := by
        simp [Db.Tag.addTagItemStep, hft, hassoc2]
      have hcount : ((db.tag_items ++ [({ item := item, tag := tg.id } : TagItemRow)]).filter
          (fun ti => ti.item = item ∧ ti.tag = tg.id)).length = 1 := by
        rw [List.filter_append]
        have hnil : db.tag_items.filter (fun ti => ti.item = item ∧ ti.tag = tg.id) = [] :=
          List.filter_eq_nil_iff.mpr (List.find?_eq_none.mp hnone)
        rw [hnil]
        simp
      rw [hstep]
      exact ⟨hstep2, tg, hft, hcount⟩
  | none =>
    have hstep : Db.Tag.addTagItemStep item db t =
        (if (db.tag_items.find? (fun ti => ti.item = item ∧ ti.tag = db.nextTagId)).isSome
         then { db with tags := db.tags ++ [{ id := db.nextTagId, name := t }],
                        nextTagId := db.nextTagId + 1 }
         else { db with tags := db.tags ++ [{ id := db.nextTagId, name := t }],
                        nextTagId := db.nextTagId + 1,
                        tag_items := db.tag_items ++ [{ item := item, tag := db.nextTagId }] }) := by
      simp only [Db.Tag.addTagItemStep, hft]
    have hftT : (db.tags ++ [({ id := db.nextTagId, name := t } : TagRow)]).find?
        (fun x => x.name = t) = some { id := db.nextTagId, name := t } := by
      rw [List.find?_append, hft, Option.none_or, List.find?_singleton]
      simp
    by_cases hassoc : (db.tag_items.find?
        (fun ti => ti.item = item ∧ ti.tag = db.nextTagId)).isSome
    · rw [if_pos hassoc] at hstep
      have hstep2 : Db.Tag.addTagItemStep item
          { db with tags := db.tags ++ [{ id := db.nextTagId, name := t }],
                    nextTagId := db.nextTagId + 1 } t =
          { db with tags := db.tags ++ [{ id := db.nextTagId, name := t }],
                    nextTagId := db.nextTagId + 1 } := by
        simp only [Db.Tag.addTagItemStep, hftT]
        obtain ⟨x, hx⟩ := Option.isSome_iff_exists.mp hassoc
        have hxp := List.find?_some hx
        simp only [List.find?_isSome]
        rw [if_pos]
        exact ⟨x, List.mem_of_find?_eq_some hx, hxp⟩
      rw [hstep]
      exact ⟨hstep2, { id := db.nextTagId, name := t }, hftT,
        pair_filter_length_eq_one db.tag_items item db.nextTagId hnodup hassoc⟩
    · rw [if_neg hassoc] at hstep
      have hnone : db.tag_items.find? (fun ti => ti.item = item ∧ ti.tag = db.nextTagId) = none :=
        Option.not_isSome_iff_eq_none.mp hassoc
      have hassoc2 : ((db.tag_items ++ [({ item := item, tag := db.nextTagId } : TagItemRow)]).find?
          (fun ti => ti.item = item ∧ ti.tag = db.nextTagId)).isSome := by
        rw [List.find?_append, hnone, Option.none_or, List.find?_singleton]
        simp
      have hstep2 : Db.Tag.addTagItemStep item
          { db with tags := db.tags ++ [{ id := db.nextTagId, name := t }],
                    nextTagId := db.nextTagId + 1,
                    tag_items := db.tag_items ++ [{ item := item, tag := db.nextTagId }] } t =
          { db with tags := db.tags ++ [{ id := db.nextTagId, name := t }],
                    nextTagId := db.nextTagId + 1,
                    tag_items := db.tag_items ++ [{ item := item, tag := db.nextTagId }] } := by
        simp [Db.Tag.addTagItemStep, hftT, hassoc2]
      have hcount : ((db.tag_items ++ [({ item := item, tag := db.nextTagId } : TagItemRow)]).filter
          (fun ti => ti.item = item ∧ ti.tag = db.nextTagId)).length = 1 := by
        rw [List.filter_append]
        have hnil : db.tag_items.filter
            (fun ti => ti.item = item ∧ ti.tag = db.nextTagId) = [] :=
          List.filter_eq_nil_iff.mpr (List.find?_eq_none.mp hnone)
        rw [hnil]
        simp
      rw [hstep]
      exact ⟨hstep2, { id := db.nextTagId, name := t }, hftT, hcount⟩

/-- C7, witness: adding tag `t` to item `5` of the empty database twice —
in either way — equals adding it once, and one association row results. -/
theorem add_tag_item_idempotent_witness :
    (db0.tag_items.map (fun ti => (ti.item, ti.tag))).Nodup ∧
      Db.Tag.add_tag_item 5 ["t"] (Db.Tag.add_tag_item 5 ["t"] db0) =
        Db.Tag.add_tag_item 5 ["t"] db0 ∧
      Db.Tag.add_tag_item 5 ["t", "t"] db0 = Db.Tag.add_tag_item 5 ["t"] db0 :=
  ⟨by decide, (add_tag_item_idempotent db0 5 "t" (by decide)).1,
   (add_tag_item_idempotent db0 5 "t" (by decide)).2.1⟩

/-- C10: every item returned by the paginated listings `item::get` and
`item::get_root` stems from a row with `checked = true` (and the matching
parent, resp. empty path), the returned totals count exactly the checked
rows of the respective predicate, and an item whose flag was cleared by
`mark_obsolete` no longer appears in either listing. -/
theorem get_lists_only_checked (db : DB) (parent limit offset id : Int) :
    (∀ x ∈ (Db.Item.get db parent limit offset).1, ∃ r ∈ db.items,
        r.id = x.id ∧ r.name = x.name ∧ r.path = x.path ∧
        r.parent = parent ∧ r.is_checked = true) ∧
    (Db.Item.get db parent limit offset).2 =
      ((db.items.filter (fun r => r.parent = parent ∧ r.is_checked = true)).length : Int) ∧
    (∀ x ∈ (Db.Item.get_root db limit offset).1, ∃ r ∈ db.items,
        r.id = x.id ∧ r.name = x.name ∧ r.path = x.path ∧
        r.path = "" ∧ r.is_checked = true) ∧
    (Db.Item.get_root db limit offset).2 =
      ((db.items.filter (fun r => r.path = "" ∧ r.is_checked = true)).length : Int) ∧
    (∀ x ∈ (Db.Item.get (Db.Item.mark_obsolete db id).2 parent limit offset).1, x.id ≠ id) ∧
    (∀ x ∈ (Db.Item.get_root (Db.Item.mark_obsolete db id).2 limit offset).1, x.id ≠ id) := by
  have hmemget : ∀ (d : DB) (x : Item), x ∈ (Db.Item.get d parent limit offset).1 →
      ∃ r ∈ d.items, r.id = x.id ∧ r.name = x.name ∧ r.path = x.path ∧
        r.parent = parent ∧ r.is_checked = true := by
    intro d x hx
    simp only [Db.Item.get, List.mem_map] at hx
    obtain ⟨r, hr, hxr⟩ := hx
    have hr' := mem_limitOffset _ _ _ _ hr
    rw [mem_orderBy] at hr'
    obtain ⟨hrm, hpred⟩ := List.mem_filter.mp hr'
    simp only [decide_eq_true_eq] at hpred
    exact ⟨r, hrm, by rw [← hxr], by rw [← hxr], by rw [← hxr], hpred.1, hpred.2⟩
  have hmemroot : ∀ (d : DB) (x : Item), x ∈ (Db.Item.get_root d limit offset).1 →
      ∃ r ∈ d.items, r.id = x.id ∧ r.name = x.name ∧ r.path = x.path ∧
        r.path = "" ∧ r.is_checked = true := by
    intro d x hx
    simp only [Db.Item.get_root, List.mem_map] at hx
    obtain ⟨r, hr, hxr⟩ := hx
    have hr' := mem_limitOffset _ _ _ _ hr
    rw [mem_orderBy] at hr'
    obtain ⟨hrm, hpred⟩ := List.mem_filter.mp hr'
    simp only [decide_eq_true_eq] at hpred
    exact ⟨r, hrm, by rw [← hxr], by rw [← hxr], by rw [← hxr], hpred.1, hpred.2⟩
  have hsnd : (Db.Item.mark_obsolete db id).2.items =
      db.items.map (fun r => if r.id = id then { r with is_checked := false } else r) := by
    simp only [Db.Item.mark_obsolete]
    split
    · rfl
    · split
      · rfl
      · rfl
  have hnotid : ∀ r ∈ (Db.Item.mark_obsolete db id).2.items,
      r.is_checked = true → r.id ≠ id := by
    intro r hr hch
    rw [hsnd] at hr
    simp only [List.mem_map] at hr
    obtain ⟨s, hs, hmap⟩ := hr
    by_cases h : s.id = id
    · rw [if_pos h] at hmap
      rw [← hmap] at hch
      exact absurd hch (by simp)
    · rw [if_neg h] at hmap
      rw [← hmap]
      exact h
  refine ⟨hmemget db, rfl, hmemroot db, rfl, ?_, ?_⟩
  · intro x hx
    obtain ⟨r, hrm, hid, -, -, -, hch⟩ := hmemget _ x hx
    rw [← hid]
    exact hnotid r hrm hch
  · intro x hx
    obtain ⟨r, hrm, hid, -, -, -, hch⟩ := hmemroot _ x hx
    rw [← hid]
    exact hnotid r hrm hch

/-- C10, witness: listing the children of folder `1` in the sample
database returns the checked item `sub`, whose source row is checked. -/
theorem get_lists_only_checked_witness :
    ({ id := 2, name := some "b", path := "sub" } : Item) ∈
        (Db.Item.get demoDB 1 10 0).1 ∧
      ∃ r ∈ demoDB.items, r.id = ({ id := 2, name := some "b", path := "sub" } : Item).id ∧
        r.name = ({ id := 2, name := some "b", path := "sub" } : Item).name ∧
        r.path = ({ id := 2, name := some "b", path := "sub" } : Item).path ∧
        r.parent = 1 ∧ r.is_checked = true :=
  ⟨by decide,
   (get_lists_only_checked demoDB 1 10 0 99).1
     { id := 2, name := some "b", path := "sub" } (by decide)⟩

theorem find?_fst_map_update (fs : Civitai.FS) (p : String) (c : List Nat) (q : String) :
    (fs.map (fun e => if e.1 = p then (p, c) else e)).find? (fun e => e.1 = q) =
      if q = p then (fs.find? (fun e => e.1 = p)).map (fun _ => (p, c))
      else fs.find? (fun e => e.1 = q) := by
  induction fs with
  | nil => by_cases h : q = p <;> simp [h]
  | cons e fs ih =>
    by_cases hep : e.1 = p
    · by_cases hqp : q = p
      · subst hqp
        rw [if_pos rfl]
        simp only [List.map_cons, if_pos hep]
        rw [List.find?_cons_of_pos _ (by simp), List.find?_cons_of_pos _ (by simp [hep])]
        simp
      · simp only [List.map_cons, if_pos hep]
        have hpq : ¬ p = q := fun h => hqp h.symm
        have heq' : ¬ e.1 = q := fun h => hqp (hep.symm.trans h).symm
        rw [List.find?_cons_of_neg _ (by simp [hpq]), if_neg hqp,
          List.find?_cons_of_neg _ (by simp [heq'])]
        rw [ih, if_neg hqp]
    · by_cases heq : e.1 = q
      · have hqp : ¬ q = p := fun h => hep (heq.trans h)
        simp only [List.map_cons, if_neg hep]
        rw [List.find?_cons_of_pos _ (by simp [heq]), if_neg hqp,
          List.find?_cons_of_pos _ (by simp [heq])]
      · simp only [List.map_cons, if_neg hep]
        rw [List.find?_cons_of_neg _ (by simp [heq]), ih]
        by_cases hqp : q = p
        · rw [if_pos hqp, if_pos hqp]
          rw [List.find?_cons_of_neg _ (by simp [hep])]
        · rw [if_neg hqp, if_neg hqp]
          rw [List.find?_cons_of_neg _ (by simp [heq])]

theorem fsRead_fsWrite (fs : Civitai.FS) (p : String) (c : List Nat) (q : String) :
    Civitai.fsRead (Civitai.fsWrite fs p c) q =
      if q = p then some c else Civitai.fsRead fs q := by
  unfold Civitai.fsWrite
  by_cases hex : (fs.find? (fun e => e.1 = p)).isSome
  · rw [if_pos hex]
    unfold Civitai.fsRead
    rw [find?_fst_map_update]
    by_cases hqp : q = p
    · rw [if_pos hqp, if_pos hqp]
      obtain ⟨e0, he0⟩ := Option.isSome_iff_exists.mp hex
      rw [he0]
      rfl
    · rw [if_neg hqp, if_neg hqp]
  · rw [if_neg hex]
    unfold Civitai.fsRead
    rw [List.find?_append]
    have hnone : fs.find? (fun e => e.1 = p) = none :=
      Option.not_isSome_iff_eq_none.mp hex
    by_cases hqp : q = p
    · subst hqp
      rw [hnone, Option.none_or, List.find?_singleton]
      simp
    · rw [List.find?_singleton, if_neg (by simp; exact fun h => hqp h.symm)]
      rw [Option.or_none, if_neg hqp]

/-- C6: when the derived preview asset already exists and overwriting is
off, `download_info` downloads nothing and leaves the preview bytes
untouched (the sidecar write goes to the distinct sidecar path); and
whenever it does download, either overwrite was requested or the preview
was absent beforehand. -/
theorem download_info_skips_existing_preview (ext filepath : String)
    (mi : Civitai.CivitaiResponseM) (ow : Bool)
    (serialize : Civitai.CivitaiResponseM → List Nat) (fetch : String → List Nat)
    (fs : Civitai.FS) (b : List Nat) :
    (ow = false →
      Civitai.fsRead fs (Civitai.rustReplace filepath ext "jpeg") = some b →
      Civitai.rustReplace filepath ext "json" ≠ Civitai.rustReplace filepath ext "jpeg" →
      (Civitai.download_info ext filepath mi ow serialize fetch fs).2 = [] ∧
      Civitai.fsRead (Civitai.download_info ext filepath mi ow serialize fetch fs).1
        (Civitai.rustReplace filepath ext "jpeg") = some b) ∧
    ((Civitai.download_info ext filepath mi ow serialize fetch fs).2 ≠ [] →
      ow = true ∨ Civitai.fsRead fs (Civitai.rustReplace filepath ext "jpeg") = none) := by
  constructor
  · intro how hrd hne
    have hb : Civitai.fsRead
        (Civitai.fsWrite fs (Civitai.rustReplace filepath ext "json") (serialize mi))
        (Civitai.rustReplace filepath ext "jpeg") = some b := by
      rw [fsRead_fsWrite, if_neg (fun h => hne h.symm)]
      exact hrd
    have hcond : (Civitai.fsRead
        (Civitai.fsWrite fs (Civitai.rustReplace filepath ext "json") (serialize mi))
        (Civitai.rustReplace filepath ext "jpeg")).isSome ∧ ow = false := by
      rw [hb]
      exact ⟨rfl, how⟩
    have heval : Civitai.download_info ext filepath mi ow serialize fetch fs =
        (Civitai.fsWrite fs (Civitai.rustReplace filepath ext "json") (serialize mi), []) := by
      simp only [Civitai.download_info]
      rw [if_pos hcond]
    rw [heval]
    exact ⟨rfl, hb⟩
  · intro hdl
    by_contra hcon
    push_neg at hcon
    obtain ⟨how, hrd⟩ := hcon
    have how' : ow = false := by
      cases ow
      · rfl
      · exact absurd rfl how
    have hsome : (Civitai.fsRead
        (Civitai.fsWrite fs (Civitai.rustReplace filepath ext "json") (serialize mi))
        (Civitai.rustReplace filepath ext "jpeg")).isSome := by
      rw [fsRead_fsWrite]
      by_cases hqp : Civitai.rustReplace filepath ext "jpeg" =
          Civitai.rustReplace filepath ext "json"
      · rw [if_pos hqp]
        rfl
      · rw [if_neg hqp]
        exact Option.ne_none_iff_isSome.mp hrd
    apply hdl
    simp only [Civitai.download_info]
    rw [if_pos ⟨hsome, how'⟩]

/-- C6, witness: with `m.jpeg` already present and overwrite off,
enrichment of `m.safetensors` downloads nothing and `m.jpeg` keeps its
bytes. -/
theorem download_info_skips_existing_preview_witness :
    Civitai.fsRead demoFS (Civitai.rustReplace "m.safetensors" "safetensors" "jpeg") =
        some [1, 2, 3] ∧
      Civitai.rustReplace "m.safetensors" "safetensors" "json" ≠
        Civitai.rustReplace "m.safetensors" "safetensors" "jpeg" ∧
      (Civitai.download_info "safetensors" "m.safetensors" { images := [{ url := "u" }] }
          false (fun _ => [7]) (fun _ => [9]) demoFS).2 = [] ∧
      Civitai.fsRead (Civitai.download_info "safetensors" "m.safetensors"
          { images := [{ url := "u" }] } false (fun _ => [7]) (fun _ => [9]) demoFS).1
        (Civitai.rustReplace "m.safetensors" "safetensors" "jpeg") = some [1, 2, 3] :=
  ⟨by decide, by decide,
   ((download_info_skips_existing_preview "safetensors" "m.safetensors"
       { images := [{ url := "u" }] } false (fun _ => [7]) (fun _ => [9]) demoFS [1, 2, 3]).1
     rfl (by decide) (by decide)).1,
   ((download_info_skips_existing_preview "safetensors" "m.safetensors"
       { images := [{ url := "u" }] } false (fun _ => [7]) (fun _ => [9]) demoFS [1, 2, 3]).1
     rfl (by decide) (by decide)).2⟩

/-- C4 (failing input for the sidecar-path derivation): for the model file
`/models/safetensors/model.safetensors` with accepted extension
`safetensors`, `download_info` writes the metadata document to
`/models/json/model.json` — `str::replace` substitutes *every* occurrence
of the extension in the path, including the directory component — and
nothing is written at the sibling path `/models/safetensors/model.json`
the spec's sidecar convention names. -/
theorem download_info_sidecar_not_sibling :
    Civitai.rustReplace "/models/safetensors/model.safetensors" "safetensors" "json" =
      "/models/json/model.json" ∧
    (Civitai.download_info "safetensors" "/models/safetensors/model.safetensors"
        { images := [] } false (fun _ => [7]) (fun _ => [9]) []).1 =
      [("/models/json/model.json", [7])] ∧
    Civitai.fsRead (Civitai.download_info "safetensors" "/models/safetensors/model.safetensors"
        { images := [] } false (fun _ => [7]) (fun _ => [9]) []).1
      "/models/safetensors/model.json" = none := by
  refine ⟨by decide, by decide, by decide⟩

theorem foldl_append_chunksAux (size : Nat) :
    ∀ (fuel : Nat) (l acc : List Nat),
      (Civitai.chunksAux size fuel l).foldl (fun a c => a ++ c) acc = acc ++ l := by
  intro fuel
  induction fuel with
  | zero =>
    intro l acc
    cases l <;> simp [Civitai.chunksAux]
  | succ n ih =>
    intro l acc
    cases l with
    | nil => simp [Civitai.chunksAux]
    | cons x xs =>
      simp only [Civitai.chunksAux, List.foldl_cons]
      rw [ih, List.append_assoc, List.take_append_drop]

theorem readChunks_foldl (content : List Nat) :
    (Civitai.readChunks 8192 content).foldl (fun acc chunk => acc ++ chunk) [] = content := by
  unfold Civitai.readChunks
  rw [foldl_append_chunksAux]
  simp

theorem length_sha256Digest (msg : List Nat) : (Civitai.sha256Digest msg).length = 32 := by
  simp [Civitai.sha256Digest, Civitai.wordBytes]

theorem length_hexEncode (bs : List Nat) : (Civitai.hexEncode bs).length = 2 * bs.length := by
  induction bs with
  | nil => simp [Civitai.hexEncode]
  | cons b bs ih =>
    simp only [Civitai.hexEncode, List.flatMap_cons, List.length_append] at ih ⊢
    simp only [List.length_cons, List.length_nil, List.length_cons]
    omega

theorem mem_hexEncode_hexDigit (bs : List Nat) (c : Char)
    (h : c ∈ Civitai.hexEncode bs) : c ∈ Civitai.hexDigits := by
  have hdig : ∀ n : Nat, n < 16 → Civitai.hexDigitChar n ∈ Civitai.hexDigits := by decide
  simp only [Civitai.hexEncode, List.mem_flatMap] at h
  obtain ⟨b, _, hc⟩ := h
  simp only [List.mem_cons, List.mem_singleton] at hc
  rcases hc with hc | hc | hc
  · rw [hc]
    exact hdig _ (Nat.mod_lt _ (by norm_num))
  · rw [hc]
    exact hdig _ (Nat.mod_lt _ (by norm_num))
  · exact absurd hc (List.not_mem_nil c)

/-- C5: the content-identity computation is a pure function of the byte
stream — equal contents give equal tokens, including the empty stream —
and the token is the first 10 characters of the lowercase hexadecimal
encoding of the SHA-256 digest, hence always exactly 10 hex characters. -/
theorem calculate_autov2_hash_deterministic (c1 c2 : List Nat) (h : c1 = c2) :
    Civitai.calculate_autov2_hash c1 = Civitai.calculate_autov2_hash c2 ∧
    (Civitai.calculate_autov2_hash c1).length = 10 ∧
    (∀ c ∈ (Civitai.calculate_autov2_hash c1).data, c ∈ Civitai.hexDigits) ∧
    (Civitai.calculate_autov2_hash c1).data =
      (Civitai.hexEncode (Civitai.sha256Digest c1)).take 10 := by
  subst h
  have hdata : (Civitai.calculate_autov2_hash c1).data =
      (Civitai.hexEncode (Civitai.sha256Digest c1)).take 10 := by
    show (String.mk ((Civitai.hexEncode (Civitai.sha256Digest
        ((Civitai.readChunks 8192 c1).foldl (fun acc chunk => acc ++ chunk) []))).take 10)).data =
      (Civitai.hexEncode (Civitai.sha256Digest c1)).take 10
    rw [readChunks_foldl]
  refine ⟨rfl, ?_, ?_, hdata⟩
  · have hlen : (Civitai.calculate_autov2_hash c1).length =
        (Civitai.calculate_autov2_hash c1).data.length := rfl
    rw [hlen, hdata, List.length_take, length_hexEncode, length_sha256Digest]
    omega
  · intro c hc
    rw [hdata] at hc
    exact mem_hexEncode_hexDigit _ c (List.mem_of_mem_take hc)

/-- C5, witness: applied to the empty byte stream — the hypothesis is the
trivial equality of contents. -/
theorem calculate_autov2_hash_deterministic_witness :
    ([] : List Nat) = [] ∧
      Civitai.calculate_autov2_hash [] = Civitai.calculate_autov2_hash [] :=
  ⟨rfl, (calculate_autov2_hash_deterministic [] [] rfl).1⟩

end SdModelsManager
